import Mathlib

/-!
Verification development for the `ig-follower-analyzer` repository.

The repository's core logic (aggregation/ranking of Instagram follow
relationships, scrape prioritization, failure backoff, and the smart merge
of JSON datasets) is shallowly embedded below, translated from:

  * `main.py` (`IGFollowerAnalyzer.get_cross_referenced_pages`,
    `IGFollowerAnalyzer._update_pages_database`),
  * `scrape_profiles.py` (`matches_hotlist`, `prioritize_pages`,
    the skip filters of `priority_scrape` / `scrape_all` and
    `re_scrape_priority` / `re_scrape_all`, and the failure-recording
    branch of `scrape_pages`),
  * `railway_sync.py` / `sync_api.py` (`merge_data_smart`),
  * `categorize_app.py` (`get_pages_by_category`),
  * `api/app/routes/clients.py` (`create_client`, `bulk_create_clients`).

Python `float` arithmetic on the metric values is modelled with exact
rationals (`ℚ`); integer counters with `ℕ`/`ℤ`; wall-clock instants with
`ℤ` (seconds); Python dictionaries either as typed structures (when the
code manipulates a fixed schema) or as association lists of JSON-like
values (for the duck-typed merge code).
-/

/-! ### JSON-like Python values and dictionaries (for `merge_data_smart`) -/

/-- A JSON-like Python value, as stored in the legacy `clients_data.json`
records that `merge_data_smart` manipulates. Numbers are modelled as exact
rationals. -/
inductive PyVal : Type where
  | null : PyVal
  | bool : Bool → PyVal
  | num : ℚ → PyVal
  | str : String → PyVal
  | list : List PyVal → PyVal
  | dict : List (String × PyVal) → PyVal

/-- Python truthiness of a value: `None`, `False`, `0`, `""`, `[]` and `{}`
are falsy, everything else truthy. -/
def PyVal.truthy : PyVal → Bool
  | .null => false
  | .bool b => b
  | .num q => decide (q ≠ 0)
  | .str s => decide (s ≠ "")
  | .list [] => false
  | .list (_ :: _) => true
  | .dict [] => false
  | .dict (_ :: _) => true

/-- A Python dictionary with string keys, as an insertion-ordered
association list (Python dictionaries preserve insertion order). -/
abbrev PyDict := List (String × PyVal)

/-- `d.get(k)`: the value of the first entry with key `k`, if any. -/
def lookupKey (d : PyDict) (k : String) : Option PyVal :=
  match d with
  | [] => none
  | (k', v) :: rest => if k' = k then some v else lookupKey rest k

/-- `d[k] = v`: overwrite the (first) entry with key `k` in place, or append
a new entry when the key is absent — the semantics of assignment into a
Python dictionary. -/
def setKey (d : PyDict) (k : String) (v : PyVal) : PyDict :=
  match d with
  | [] => [(k, v)]
  | (k', v') :: rest => if k' = k then (k', v) :: rest else (k', v') :: setKey rest k v

@[simp] theorem lookupKey_nil (k : String) : lookupKey [] k = none := rfl

theorem lookupKey_setKey_self (d : PyDict) (k : String) (v : PyVal) :
    lookupKey (setKey d k v) k = some v := by
  induction d with
  | nil => simp [setKey, lookupKey]
  | cons hd tl ih =>
    obtain ⟨k', v'⟩ := hd
    by_cases h : k' = k <;> simp [setKey, lookupKey, h, ih]

theorem lookupKey_setKey_ne (d : PyDict) (k k' : String) (v : PyVal) (h : k ≠ k') :
    lookupKey (setKey d k v) k' = lookupKey d k' := by
  induction d with
  | nil => simp [setKey, lookupKey, h]
  | cons hd tl ih =>
    obtain ⟨k₀, v₀⟩ := hd
    by_cases h₀ : k₀ = k
    · subst h₀; simp [setKey, lookupKey, h]
    · simp [setKey, lookupKey, h₀, ih]

theorem setKey_lookup_self (d : PyDict) (k : String) (v : PyVal)
    (h : lookupKey d k = some v) : setKey d k v = d := by
  induction d with
  | nil => simp [lookupKey] at h
  | cons hd tl ih =>
    obtain ⟨k₀, v₀⟩ := hd
    by_cases h₀ : k₀ = k
    · subst h₀
      simp [lookupKey] at h
      simp [setKey, h]
    · simp [lookupKey, h₀] at h
      simp [setKey, h₀, ih h]

/-! ### `merge_data_smart` (`railway_sync.py` lines 36–85; the version in
`sync_api.py` lines 18–58 performs the identical per-field updates, with
the two categorization fields handled in a two-element loop instead of two
explicit `if` statements) -/

/-- The seven contact/promo fields preserved from the existing record only
when the existing value is truthy (`if field in existing_page_data and
existing_page_data[field]`). -/
def contactFields : List String :=
  ["known_contact_methods", "successful_contact_method",
   "current_main_contact_method", "ig_account_for_dm",
   "promo_price", "promo_status", "website_url"]

/-- One step of the contact-field preservation loop of `merge_data_smart`. -/
def preserveTruthy (ex : PyDict) (m : PyDict) (f : String) : PyDict :=
  match lookupKey ex f with
  | some v => if v.truthy then setKey m f v else m
  | none => m

/-- One step of the categorization-field preservation of
`merge_data_smart`: the existing value is copied whenever the key is
present (`if "category" in existing_page_data`), with no truthiness test. -/
def preservePresent (ex : PyDict) (m : PyDict) (f : String) : PyDict :=
  match lookupKey ex f with
  | some v => setKey m f v
  | none => m

/-- The final `website_promo_info` step of `merge_data_smart`: the existing
value is preserved only when the new record lacks a truthy value for that
key (presence-wins-if-new-absent). -/
def mergeWpi (ex newp m : PyDict) : PyDict :=
  match lookupKey ex "website_promo_info" with
  | some v =>
      match lookupKey newp "website_promo_info" with
      | some w => if w.truthy then m else setKey m "website_promo_info" v
      | none => setKey m "website_promo_info" v
  | none => m

/-- The per-page body of `merge_data_smart`: start from a copy of the new
scraped record, preserve the two categorization fields by presence, the
seven contact/promo fields by truthiness, and `website_promo_info` only
when the new record lacks a truthy value for it. -/
def mergePage (ex newp : PyDict) : PyDict :=
  let m := newp
  let m := preservePresent ex m "category"
  let m := preservePresent ex m "category_confidence"
  let m := contactFields.foldl (preserveTruthy ex) m
  mergeWpi ex newp m

/-- A legacy-JSON dataset: the `clients` map and the `pages` map
(`merge_data_smart` reads and produces exactly these two keys). -/
structure Dataset : Type where
  clients : List (String × PyDict)
  pages : List (String × PyDict)

/-- Lookup in a pages/clients map (same first-match semantics as
`lookupKey`). -/
def lookupPage (d : List (String × PyDict)) (k : String) : Option PyDict :=
  match d with
  | [] => none
  | (k', v) :: rest => if k' = k then some v else lookupPage rest k

/-- Assignment into a pages map (same semantics as `setKey`). -/
def setPage (d : List (String × PyDict)) (k : String) (v : PyDict) :
    List (String × PyDict) :=
  match d with
  | [] => [(k, v)]
  | (k', v') :: rest => if k' = k then (k', v) :: rest else (k', v') :: setPage rest k v

/-- `merge_data_smart(existing, new)`: clients taken wholesale from the new
dataset; each page of the new dataset smart-merged against the existing
page of the same username (or against the empty record `{}` when absent);
pages present only in the existing dataset carried forward unchanged. -/
def merge_data_smart (existing newd : Dataset) : Dataset :=
  let mergedPages := newd.pages.foldl
    (fun acc p =>
      setPage acc p.1 (mergePage ((lookupPage existing.pages p.1).getD []) p.2))
    []
  let mergedPages := existing.pages.foldl
    (fun acc p =>
      match lookupPage acc p.1 with
      | some _ => acc
      | none => acc ++ [p])
    mergedPages
  { clients := newd.clients, pages := mergedPages }

/-! ### Lookup lemmas for the smart merge -/

theorem lookup_preservePresent_self (ex m : PyDict) (f : String) :
    lookupKey (preservePresent ex m f) f =
      match lookupKey ex f with
      | some v => some v
      | none => lookupKey m f := by
  cases h : lookupKey ex f <;> simp [preservePresent, h, lookupKey_setKey_self]

theorem lookup_preservePresent_ne (ex m : PyDict) (g f : String) (h : g ≠ f) :
    lookupKey (preservePresent ex m g) f = lookupKey m f := by
  cases hx : lookupKey ex g <;> simp [preservePresent, hx, lookupKey_setKey_ne _ _ _ _ h]

theorem lookup_preserveTruthy_self (ex m : PyDict) (f : String) :
    lookupKey (preserveTruthy ex m f) f =
      match lookupKey ex f with
      | some v => if v.truthy then some v else lookupKey m f
      | none => lookupKey m f := by
  cases h : lookupKey ex f
  · simp [preserveTruthy, h]
  · rename_i v
    by_cases ht : v.truthy <;> simp [preserveTruthy, h, ht, lookupKey_setKey_self]

theorem lookup_preserveTruthy_ne (ex m : PyDict) (g f : String) (h : g ≠ f) :
    lookupKey (preserveTruthy ex m g) f = lookupKey m f := by
  cases hx : lookupKey ex g
  · simp [preserveTruthy, hx]
  · rename_i v
    by_cases ht : v.truthy <;>
      simp [preserveTruthy, hx, ht, lookupKey_setKey_ne _ _ _ _ h]

theorem lookup_foldTruthy_not_mem (ex : PyDict) (fs : List String) (m : PyDict)
    (f : String) (hf : f ∉ fs) :
    lookupKey (fs.foldl (preserveTruthy ex) m) f = lookupKey m f := by
  induction fs generalizing m with
  | nil => rfl
  | cons g gs ih =>
    have hgf : g ≠ f := fun h => hf (h ▸ List.mem_cons_self g gs)
    have hfs : f ∉ gs := fun h => hf (List.mem_cons_of_mem _ h)
    simp only [List.foldl_cons]
    rw [ih _ hfs, lookup_preserveTruthy_ne _ _ _ _ hgf]

theorem lookup_foldTruthy_mem (ex : PyDict) (fs : List String) (m : PyDict)
    (f : String) (hnd : fs.Nodup) (hf : f ∈ fs) :
    lookupKey (fs.foldl (preserveTruthy ex) m) f =
      match lookupKey ex f with
      | some v => if v.truthy then some v else lookupKey m f
      | none => lookupKey m f := by
  induction fs generalizing m with
  | nil => cases hf
  | cons g gs ih =>
    simp only [List.foldl_cons]
    rcases List.mem_cons.mp hf with rfl | hmem
    · have hnot : f ∉ gs := (List.nodup_cons.mp hnd).1
      rw [lookup_foldTruthy_not_mem _ _ _ _ hnot, lookup_preserveTruthy_self]
    · have hgf : g ≠ f := by
        rintro rfl
        exact (List.nodup_cons.mp hnd).1 hmem
      rw [ih _ (List.nodup_cons.mp hnd).2 hmem, lookup_preserveTruthy_ne _ _ _ _ hgf]

theorem lookup_mergeWpi_ne (ex newp m : PyDict) (f : String)
    (h : f ≠ "website_promo_info") :
    lookupKey (mergeWpi ex newp m) f = lookupKey m f := by
  unfold mergeWpi
  cases hx : lookupKey ex "website_promo_info"
  · rfl
  · cases hn : lookupKey newp "website_promo_info"
    · simp [lookupKey_setKey_ne _ _ _ _ (Ne.symm h)]
    · rename_i w
      by_cases ht : w.truthy <;> simp [ht, lookupKey_setKey_ne _ _ _ _ (Ne.symm h)]

/-- C4 (counterexample): with an existing record whose `category` key is
present but empty (`{"category": None}`) and a new scraped record
`{"category": "Y", "follower_count": 500}`, the smart merge keeps the
empty existing `category` instead of the new scraped value — contradicting
the claim that an empty existing value never overwrites the new value. -/
theorem mergePage_empty_category_overwrites :
    lookupKey (mergePage [("category", PyVal.null)]
        [("category", PyVal.str "Y"), ("follower_count", PyVal.num 500)]) "category"
        = some PyVal.null ∧
      lookupKey (mergePage [("category", PyVal.null)]
        [("category", PyVal.str "Y"), ("follower_count", PyVal.num 500)]) "category"
        ≠ some (PyVal.str "Y") := by
  refine ⟨rfl, fun h => ?_⟩
  rw [show lookupKey (mergePage [("category", PyVal.null)]
        [("category", PyVal.str "Y"), ("follower_count", PyVal.num 500)]) "category"
        = some PyVal.null from rfl] at h
  exact PyVal.noConfusion (Option.some.inj h)

/-- C4 (amended): for each of the seven contact/promo allow-list fields the
merged value is the existing one exactly when the existing value is
non-empty, and the new one otherwise; for `category` and
`category_confidence` the existing value wins whenever the key is present
in the existing record, even when that value is empty. -/
theorem mergePage_allowlist_fields (ex newp : PyDict) (f : String) :
    (f ∈ contactFields →
      lookupKey (mergePage ex newp) f =
        match lookupKey ex f with
        | some v => if v.truthy then some v else lookupKey newp f
        | none => lookupKey newp f) ∧
    ((f = "category" ∨ f = "category_confidence") →
      lookupKey (mergePage ex newp) f =
        match lookupKey ex f with
        | some v => some v
        | none => lookupKey newp f) := by
  have hstage : ∀ g : String, "category" ≠ g → "category_confidence" ≠ g →
      lookupKey (preservePresent ex
        (preservePresent ex newp "category") "category_confidence") g
      = lookupKey newp g := by
    intro g hg hg'
    rw [lookup_preservePresent_ne _ _ _ _ hg', lookup_preservePresent_ne _ _ _ _ hg]
  constructor
  · intro hf
    simp only [contactFields, List.mem_cons, List.not_mem_nil, or_false] at hf
    rcases hf with rfl | rfl | rfl | rfl | rfl | rfl | rfl <;>
      rw [mergePage, lookup_mergeWpi_ne _ _ _ _ (by decide),
        lookup_foldTruthy_mem _ _ _ _ (by decide) (by decide),
        hstage _ (by decide) (by decide)]
  · rintro (rfl | rfl)
    · rw [mergePage, lookup_mergeWpi_ne _ _ _ _ (by decide),
        lookup_foldTruthy_not_mem _ _ _ _ (by decide),
        lookup_preservePresent_ne _ _ _ _ (by decide),
        lookup_preservePresent_self]
    · rw [mergePage, lookup_mergeWpi_ne _ _ _ _ (by decide),
        lookup_foldTruthy_not_mem _ _ _ _ (by decide),
        lookup_preservePresent_self]
      cases h : lookupKey ex "category_confidence" <;>
        simp [lookup_preservePresent_ne _ _ _ _ (by decide : "category" ≠ "category_confidence")]

/-- Closed instance of `mergePage_allowlist_fields`: the truthiness rule at
the concrete field `promo_price` and the presence rule at `category`. -/
theorem mergePage_allowlist_fields_witness :
    lookupKey (mergePage [("promo_price", PyVal.num 30), ("category", PyVal.null)]
        [("promo_price", PyVal.num 99), ("category", PyVal.str "Y")]) "promo_price"
      = some (PyVal.num 30) ∧
    lookupKey (mergePage [("promo_price", PyVal.num 30), ("category", PyVal.null)]
        [("promo_price", PyVal.num 99), ("category", PyVal.str "Y")]) "category"
      = some PyVal.null := by
  constructor
  · rw [(mergePage_allowlist_fields
      [("promo_price", PyVal.num 30), ("category", PyVal.null)]
      [("promo_price", PyVal.num 99), ("category", PyVal.str "Y")] "promo_price").1
      (by decide)]
    rfl
  · rw [(mergePage_allowlist_fields
      [("promo_price", PyVal.num 30), ("category", PyVal.null)]
      [("promo_price", PyVal.num 99), ("category", PyVal.str "Y")] "category").2
      (Or.inl rfl)]
    rfl

/-! ### Idempotence of the smart merge -/

theorem preservePresent_self_eq (p : PyDict) (f : String) :
    preservePresent p p f = p := by
  unfold preservePresent
  cases h : lookupKey p f
  · rfl
  · exact setKey_lookup_self _ _ _ h

theorem preserveTruthy_self_eq (p : PyDict) (f : String) :
    preserveTruthy p p f = p := by
  unfold preserveTruthy
  cases h : lookupKey p f
  · rfl
  · rename_i v
    by_cases ht : v.truthy <;> simp [ht, setKey_lookup_self _ _ _ h]

theorem mergeWpi_self_eq (p : PyDict) : mergeWpi p p p = p := by
  unfold mergeWpi
  cases h : lookupKey p "website_promo_info"
  · rfl
  · rename_i v
    by_cases ht : v.truthy <;> simp [h, ht, setKey_lookup_self _ _ _ h]

theorem mergePage_self (p : PyDict) : mergePage p p = p := by
  have hfold : ∀ fs : List String, fs.foldl (preserveTruthy p) p = p := by
    intro fs
    induction fs with
    | nil => rfl
    | cons g gs ih => rw [List.foldl_cons, preserveTruthy_self_eq, ih]
  simp only [mergePage, preservePresent_self_eq, hfold, mergeWpi_self_eq]

/-- The keys of a pages map, in order. -/
def keysOf (d : List (String × PyDict)) : List String := d.map Prod.fst

theorem lookupPage_eq_none_iff (d : List (String × PyDict)) (k : String) :
    lookupPage d k = none ↔ k ∉ keysOf d := by
  induction d with
  | nil => simp [lookupPage, keysOf]
  | cons hd tl ih =>
    obtain ⟨k', v⟩ := hd
    by_cases h : k' = k
    · subst h
      simp [lookupPage, keysOf]
    · simp only [lookupPage, if_neg h, keysOf, List.map_cons, List.mem_cons, not_or, ih]
      constructor
      · intro hk
        exact ⟨fun he => h he.symm, hk⟩
      · intro hk
        exact hk.2

theorem lookupPage_isSome_of_mem_keys (d : List (String × PyDict)) (k : String)
    (h : k ∈ keysOf d) : (lookupPage d k).isSome := by
  cases hl : lookupPage d k
  · exact absurd h ((lookupPage_eq_none_iff d k).mp hl)
  · rfl

theorem lookupPage_of_nodup_mem (d : List (String × PyDict)) (u : String) (pd : PyDict)
    (hnd : (keysOf d).Nodup) (hmem : (u, pd) ∈ d) : lookupPage d u = some pd := by
  induction d with
  | nil => cases hmem
  | cons hd tl ih =>
    obtain ⟨k, v⟩ := hd
    have hnd' : (k :: keysOf tl).Nodup := by
      simpa only [keysOf, List.map_cons] using hnd
    rcases List.mem_cons.mp hmem with heq | hmem'
    · obtain ⟨rfl, rfl⟩ := Prod.mk.injEq .. ▸ heq
      simp [lookupPage]
    · have hk : k ∉ keysOf tl := (List.nodup_cons.mp hnd').1
      have hku : k ≠ u := by
        rintro rfl
        exact hk (List.mem_map_of_mem Prod.fst hmem')
      simp only [lookupPage, hku, if_false]
      exact ih (List.nodup_cons.mp hnd').2 hmem'

theorem setPage_of_not_mem (d : List (String × PyDict)) (k : String) (v : PyDict)
    (h : k ∉ keysOf d) : setPage d k v = d ++ [(k, v)] := by
  induction d with
  | nil => rfl
  | cons hd tl ih =>
    obtain ⟨k', v'⟩ := hd
    have hk : k' ≠ k := by
      rintro rfl
      exact h (by simp [keysOf])
    simp only [setPage, hk, if_false, List.cons_append, List.cons.injEq, true_and]
    exact ih (fun hm => h (by simp [keysOf] at hm ⊢; tauto))

theorem merge_fold_self (L : List (String × PyDict)) :
    ∀ (l acc : List (String × PyDict)),
      (keysOf l).Nodup → (∀ u ∈ keysOf l, u ∉ keysOf acc) →
      (∀ p ∈ l, lookupPage L p.1 = some p.2) →
      l.foldl (fun acc p =>
          setPage acc p.1 (mergePage ((lookupPage L p.1).getD []) p.2)) acc
        = acc ++ l := by
  intro l
  induction l with
  | nil => intro acc _ _ _; simp
  | cons hd tl ih =>
    intro acc hnd hdisj hlk
    obtain ⟨u, pd⟩ := hd
    have hlku : lookupPage L u = some pd := hlk (u, pd) (List.mem_cons_self _ _)
    have hstep : setPage acc u (mergePage ((lookupPage L u).getD []) pd)
        = acc ++ [(u, pd)] := by
      rw [hlku]
      simp only [Option.getD_some]
      rw [mergePage_self]
      exact setPage_of_not_mem _ _ _ (hdisj u (by simp [keysOf]))
    simp only [List.foldl_cons, hstep]
    have hndc : (u :: keysOf tl).Nodup := by
      simpa only [keysOf, List.map_cons] using hnd
    have hnd' : (keysOf tl).Nodup := (List.nodup_cons.mp hndc).2
    have hu_not : u ∉ keysOf tl := (List.nodup_cons.mp hndc).1
    rw [ih (acc ++ [(u, pd)]) hnd'
      (by
        intro u' hu'
        have h1 : u' ∉ keysOf acc := hdisj u' (by simp [keysOf] at hu' ⊢; tauto)
        have h2 : u' ≠ u := by rintro rfl; exact hu_not hu'
        simp [keysOf] at h1 ⊢
        tauto)
      (fun p hp => hlk p (List.mem_cons_of_mem _ hp))]
    simp

theorem carry_fold_noop (l acc : List (String × PyDict))
    (h : ∀ p ∈ l, (lookupPage acc p.1).isSome) :
    l.foldl (fun acc p =>
        match lookupPage acc p.1 with
        | some _ => acc
        | none => acc ++ [p]) acc
      = acc := by
  induction l with
  | nil => rfl
  | cons hd tl ih =>
    have hh := h hd (List.mem_cons_self _ _)
    cases hl : lookupPage acc hd.1
    · rw [hl] at hh; cases hh
    · simp only [List.foldl_cons, hl]
      exact ih (fun p hp => h p (List.mem_cons_of_mem _ hp))

/-- C7: the smart merge is idempotent — merging a dataset with itself
returns it unchanged (clients map, page set and every page record,
including every allow-listed human-edit field). -/
theorem merge_data_smart_idem (A : Dataset) (hnd : (keysOf A.pages).Nodup) :
    merge_data_smart A A = A := by
  have h1 : A.pages.foldl (fun acc p =>
      setPage acc p.1 (mergePage ((lookupPage A.pages p.1).getD []) p.2)) []
      = A.pages := by
    have := merge_fold_self A.pages A.pages [] hnd
      (by intro u _; simp [keysOf])
      (fun p hp => lookupPage_of_nodup_mem A.pages p.1 p.2 hnd hp)
    simpa using this
  have h2 := carry_fold_noop A.pages A.pages (fun p hp =>
    lookupPage_isSome_of_mem_keys A.pages p.1 (List.mem_map_of_mem Prod.fst hp))
  simp only [merge_data_smart, h1, h2]

/-- Closed instance of `merge_data_smart_idem` on a concrete two-page
dataset. -/
theorem merge_data_smart_idem_witness :
    (keysOf [("pg", [("category", PyVal.str "X"), ("promo_price", PyVal.num 30)]),
             ("qg", [("category", PyVal.null)])]).Nodup ∧
    merge_data_smart
      ⟨[("cl", [("following_count", PyVal.num 10)])],
       [("pg", [("category", PyVal.str "X"), ("promo_price", PyVal.num 30)]),
        ("qg", [("category", PyVal.null)])]⟩
      ⟨[("cl", [("following_count", PyVal.num 10)])],
       [("pg", [("category", PyVal.str "X"), ("promo_price", PyVal.num 30)]),
        ("qg", [("category", PyVal.null)])]⟩
    = ⟨[("cl", [("following_count", PyVal.num 10)])],
       [("pg", [("category", PyVal.str "X"), ("promo_price", PyVal.num 30)]),
        ("qg", [("category", PyVal.null)])]⟩ :=
  ⟨by decide, merge_data_smart_idem _ (by decide)⟩

/-! ### Typed page schema (`main.py` lines 401–421 fix the record shape of a
page; the analyzer/scraper code reads these fields directly) -/

/-- A stored profile-data record for a page. This is the union of the
success shape written by `scrape_pages` (`scrape_profiles.py` lines
143–159) and the failure shape written by its failure branches (lines
187–196 and 213–222). `Option`-typed fields model keys that one of the two
shapes omits, since the code reads them with `.get(...)` (absent ⇒ falsy).
`last_attempt` is `some t` when the key holds a parseable ISO timestamp,
modelled as seconds (`ℤ`), and `none` when the key is absent or
unparseable — the two cases behave identically in every reader, which
wraps the parse in `try/except: pass`. -/
structure ProfileData : Type where
  profile_pic_url : Option String
  profile_pic_base64 : Option String
  profile_pic_mime_type : Option String
  bio : Option String
  posts : List PyVal
  follower_count : Option ℕ
  full_name : Option String
  is_verified : Option Bool
  scraped_at : Option String
  promo_status : Option String
  promo_indicators : Option (List String)
  website_url : Option String
  website_promo_info : Option PyVal
  failed : Bool
  last_attempt : Option ℤ
  error : Option String
  consecutive_failures : ℕ
  long_term_failed : Bool

/-- A page record, with the schema created by
`IGFollowerAnalyzer._update_pages_database` (`main.py` lines 401–421).
`Option` models a Python `None` value. -/
structure PageData : Type where
  username : String
  full_name : String
  follower_count : ℕ
  is_verified : Bool
  clients_following : List String
  promo_price : Option ℚ
  category : Option String
  category_confidence : Option ℚ
  contact_email : Option String
  promo_status : String
  promo_indicators : List String
  last_categorized : Option String
  profile_data : Option ProfileData
  known_contact_methods : List String
  successful_contact_method : Option String
  current_main_contact_method : Option String
  ig_account_for_dm : Option String
  website_url : Option String
  website_promo_info : Option PyVal

/-! ### `get_cross_referenced_pages` (`main.py` lines 483–516) -/

/-- One row of the cross-reference report (the dictionary appended at
`main.py` lines 502–512). -/
structure ReportEntry : Type where
  username : String
  full_name : String
  clients_following : ℕ
  total_followers : ℕ
  concentration : ℚ
  followers_per_client : ℚ
  is_verified : Bool
  clients : List String
  promo_price : Option ℚ
deriving DecidableEq

/-- The report row built for one page (`main.py` lines 494–512):
`concentration = client_count / follower_count if follower_count > 0 else 0`
and `followers_per_client = follower_count / client_count if client_count
> 0 else 0`. -/
def mkReportEntry (u : String) (pd : PageData) : ReportEntry :=
  let client_count := pd.clients_following.length
  let follower_count := pd.follower_count
  { username := u
    full_name := pd.full_name
    clients_following := client_count
    total_followers := follower_count
    concentration :=
      if 0 < follower_count then (client_count : ℚ) / (follower_count : ℚ) else 0
    followers_per_client :=
      if 0 < client_count then (follower_count : ℚ) / (client_count : ℚ) else 0
    is_verified := pd.is_verified
    clients := pd.clients_following
    promo_price := pd.promo_price }

/-- The comparison underlying
`pages_with_multiple.sort(key=lambda x: x["clients_following"], reverse=True)`:
`a` may stay before `b` exactly when `a`'s client count is at least `b`'s.
Python's sort is stable and `reverse=True` keeps ties in original order, so
the result is the unique stable descending sort — realized here by
insertion sort with this relation. -/
def reportGe (a b : ReportEntry) : Prop :=
  b.clients_following ≤ a.clients_following

instance : DecidableRel reportGe := fun a b =>
  Nat.decLe b.clients_following a.clients_following

instance : IsTotal ReportEntry reportGe :=
  ⟨fun a b => Nat.le_total b.clients_following a.clients_following⟩

instance : IsTrans ReportEntry reportGe :=
  ⟨fun _ _ _ hab hbc => le_trans hbc hab⟩

/-- `IGFollowerAnalyzer.get_cross_referenced_pages` (`main.py` lines
483–516): keep the pages whose `clients_following` list has length at
least `min_clients`, build a report row for each, and stably sort the rows
by client count, descending. The pages map is an insertion-ordered
association list, as iterated by `self.clients_data["pages"].items()`. -/
def get_cross_referenced_pages (pages : List (String × PageData))
    (min_clients : ℤ) : List ReportEntry :=
  let pages_with_multiple := pages.filterMap (fun p =>
    if min_clients ≤ (p.2.clients_following.length : ℤ)
    then some (mkReportEntry p.1 p.2) else none)
  List.insertionSort reportGe pages_with_multiple

/-- A guarded loop-append (`if cond: result.append(f(x))`) is a
filter-then-map. -/
theorem filterMap_ite_eq {α β : Type} (p : α → Prop) [DecidablePred p]
    (g : α → β) (l : List α) :
    l.filterMap (fun a => if p a then some (g a) else none)
      = (l.filter (fun a => decide (p a))).map g := by
  induction l with
  | nil => rfl
  | cons x t ih => by_cases h : p x <;> simp [List.filterMap_cons, h, ih]

/-- Stability of the report sort: the rows holding any fixed client count
appear in the sorted report in exactly their pre-sort order. -/
theorem insertionSort_reportGe_filter_count (l : List ReportEntry) (c : ℕ) :
    (List.insertionSort reportGe l).filter (fun e => e.clients_following == c)
      = l.filter (fun e => e.clients_following == c) := by
  have hpw : (l.filter (fun e => e.clients_following == c)).Pairwise reportGe := by
    apply List.pairwise_of_forall_mem_list
    intro a ha b hb
    have ha' : a.clients_following = c := by
      simpa using (List.mem_filter.mp ha).2
    have hb' : b.clients_following = c := by
      simpa using (List.mem_filter.mp hb).2
    unfold reportGe
    rw [ha', hb']
  have hsub : List.Sublist (l.filter (fun e => e.clients_following == c))
      (List.insertionSort reportGe l) :=
    List.sublist_insertionSort hpw (List.filter_sublist l)
  have hsub2 : List.Sublist (l.filter (fun e => e.clients_following == c))
      ((List.insertionSort reportGe l).filter (fun e => e.clients_following == c)) := by
    have h := hsub.filter (fun e => e.clients_following == c)
    rwa [List.filter_eq_self.mpr (fun a ha => (List.mem_filter.mp ha).2)] at h
  have hlen : ((List.insertionSort reportGe l).filter
        (fun e => e.clients_following == c)).length
      = (l.filter (fun e => e.clients_following == c)).length :=
    ((List.perm_insertionSort reportGe l).filter _).length_eq
  exact (hsub2.eq_of_length hlen.symm).symm

/-- C1: the cross-reference report contains exactly the pages with at
least `min_clients` distinct following clients (as a permutation of their
report rows), is sorted by client count descending, and the sort is stable
(rows with equal counts keep their original pages-map order). -/
theorem get_cross_referenced_pages_spec (pages : List (String × PageData))
    (min_clients : ℤ)
    (hnd : ∀ p ∈ pages, p.2.clients_following.Nodup) :
    (get_cross_referenced_pages pages min_clients).Perm
        ((pages.filter (fun p =>
            decide (min_clients ≤ (p.2.clients_following.dedup.length : ℤ)))).map
          (fun p => mkReportEntry p.1 p.2)) ∧
    (get_cross_referenced_pages pages min_clients).Sorted reportGe ∧
    (∀ c : ℕ,
      (get_cross_referenced_pages pages min_clients).filter
          (fun e => e.clients_following == c)
        = ((pages.filter (fun p =>
              decide (min_clients ≤ (p.2.clients_following.dedup.length : ℤ)))).map
            (fun p => mkReportEntry p.1 p.2)).filter
          (fun e => e.clients_following == c)) := by
  have hded : pages.filter (fun p =>
        decide (min_clients ≤ (p.2.clients_following.dedup.length : ℤ)))
      = pages.filter (fun p =>
        decide (min_clients ≤ (p.2.clients_following.length : ℤ))) := by
    apply List.filter_congr
    intro p hp
    rw [List.Nodup.dedup (hnd p hp)]
  have hentries : pages.filterMap (fun p =>
        if min_clients ≤ (p.2.clients_following.length : ℤ)
        then some (mkReportEntry p.1 p.2) else none)
      = (pages.filter (fun p =>
          decide (min_clients ≤ (p.2.clients_following.length : ℤ)))).map
        (fun p => mkReportEntry p.1 p.2) :=
    filterMap_ite_eq _ _ _
  refine ⟨?_, ?_, ?_⟩
  · rw [hded]
    unfold get_cross_referenced_pages
    rw [hentries]
    exact List.perm_insertionSort reportGe _
  · exact List.sorted_insertionSort reportGe _
  · intro c
    rw [hded]
    unfold get_cross_referenced_pages
    rw [hentries]
    exact insertionSort_reportGe_filter_count _ c

/-- A concrete page for closed witness instances: followed by clients `A`
and `B`, 1000 followers (the end-to-end scenario of the spec), with a set
promo price of 100. -/
def examplePageP : PageData :=
  { username := "P"
    full_name := "Page P"
    follower_count := 1000
    is_verified := false
    clients_following := ["A", "B"]
    promo_price := some 100
    category := some "Fitness"
    category_confidence := none
    contact_email := none
    promo_status := "Unknown"
    promo_indicators := []
    last_categorized := none
    profile_data := none
    known_contact_methods := []
    successful_contact_method := none
    current_main_contact_method := none
    ig_account_for_dm := none
    website_url := none
    website_promo_info := none }

/-- Closed instance of `get_cross_referenced_pages_spec` on the one-page
example map with `min_clients = 2`. -/
theorem get_cross_referenced_pages_spec_witness :
    (∀ p ∈ [("P", examplePageP)], p.2.clients_following.Nodup) ∧
    ((get_cross_referenced_pages [("P", examplePageP)] 2).Perm
        (([("P", examplePageP)].filter (fun p =>
            decide ((2 : ℤ) ≤ (p.2.clients_following.dedup.length : ℤ)))).map
          (fun p => mkReportEntry p.1 p.2)) ∧
      (get_cross_referenced_pages [("P", examplePageP)] 2).Sorted reportGe ∧
      (∀ c : ℕ,
        (get_cross_referenced_pages [("P", examplePageP)] 2).filter
            (fun e => e.clients_following == c)
          = (([("P", examplePageP)].filter (fun p =>
                decide ((2 : ℤ) ≤ (p.2.clients_following.dedup.length : ℤ)))).map
              (fun p => mkReportEntry p.1 p.2)).filter
            (fun e => e.clients_following == c))) :=
  ⟨by decide, get_cross_referenced_pages_spec [("P", examplePageP)] 2 (by decide)⟩

/-! ### `get_pages_by_category` (`categorize_app.py` lines 303–352) -/

/-- Python truthiness of an `Option String` slot (`None` and `""` falsy). -/
def truthyOptStr : Option String → Bool
  | some s => decide (s ≠ "")
  | none => false

/-- One row of the category/value view (the `page_info` dictionary of
`categorize_app.py` lines 325–339). `concentration_per_dollar` is `none`
exactly where Python stores `None`. -/
structure CatEntry : Type where
  username : String
  page_data : PageData
  client_count : ℕ
  follower_count : ℕ
  promo_price : Option ℚ
  concentration : ℚ
  followers_per_client : ℚ
  concentration_per_dollar : Option ℚ

/-- The filter of the page loop (`categorize_app.py` lines 308–319):
client count at least `min_clients`, and the category test — for the
special `"UNCATEGORIZED"` view, keep the page unless it has a truthy
category other than `"UNKNOWN"`; otherwise keep only an exact category
match. -/
def keepInCategory (category : String) (min_clients : ℤ) (pd : PageData) : Bool :=
  decide (min_clients ≤ (pd.clients_following.length : ℤ)) &&
    (if category = "UNCATEGORIZED"
     then !(truthyOptStr pd.category && decide (pd.category ≠ some "UNKNOWN"))
     else decide (pd.category = some category))

/-- The row built for one kept page (`categorize_app.py` lines 321–339):
the same zero-guarded `concentration` and `followers_per_client` as the
cross-reference report, and `concentration_per_dollar =
concentration / promo_price` exactly when `promo_price` is truthy and
positive, `None` otherwise. -/
def mkCatEntry (u : String) (pd : PageData) : CatEntry :=
  let client_count := pd.clients_following.length
  let follower_count := pd.follower_count
  let concentration : ℚ :=
    if 0 < follower_count then (client_count : ℚ) / (follower_count : ℚ) else 0
  { username := u
    page_data := pd
    client_count := client_count
    follower_count := follower_count
    promo_price := pd.promo_price
    concentration := concentration
    followers_per_client :=
      if 0 < client_count then (follower_count : ℚ) / (client_count : ℚ) else 0
    concentration_per_dollar :=
      match pd.promo_price with
      | some p => if 0 < p then some (concentration / p) else none
      | none => none }

/-- The comparison realizing the sort key of `categorize_app.py` lines
344–351: priced rows (`concentration_per_dollar` present) carry key
`(0, -concentration_per_dollar)`, unpriced rows key
`(1, -followers_per_client)`; tuples compare lexicographically and
Python's sort is stable ascending, so `a` may stay before `b` exactly when
`key a ≤ key b`. -/
def catLe (a b : CatEntry) : Prop :=
  match a.concentration_per_dollar, b.concentration_per_dollar with
  | some x, some y => y ≤ x
  | some _, none => True
  | none, some _ => False
  | none, none => b.followers_per_client ≤ a.followers_per_client

instance : DecidableRel catLe := fun a b => by
  unfold catLe
  cases a.concentration_per_dollar <;> cases b.concentration_per_dollar <;>
    simp <;> infer_instance

instance : IsTotal CatEntry catLe where
  total a b := by
    unfold catLe
    cases a.concentration_per_dollar <;> cases b.concentration_per_dollar <;> simp
    · exact le_total _ _
    · exact le_total _ _

instance : IsTrans CatEntry catLe where
  trans a b c hab hbc := by
    unfold catLe at *
    cases ha : a.concentration_per_dollar <;> cases hb : b.concentration_per_dollar <;>
      cases hc : c.concentration_per_dollar <;> rw [ha, hb] at hab <;> rw [hb, hc] at hbc <;>
      simp at *
    · exact le_trans hbc hab
    · exact le_trans hbc hab

/-- `get_pages_by_category(data, category, min_clients)`
(`categorize_app.py` lines 303–352): keep the pages passing the
category/threshold filter, build a row for each, and sort by the two-group
key. -/
def get_pages_by_category (pages : List (String × PageData))
    (category : String) (min_clients : ℤ) : List CatEntry :=
  let result := pages.filterMap (fun p =>
    if keepInCategory category min_clients p.2 = true
    then some (mkCatEntry p.1 p.2) else none)
  List.insertionSort catLe result

/-- Membership characterization of the cross-reference report. -/
theorem mem_get_cross_referenced_pages (pages : List (String × PageData))
    (mc : ℤ) (e : ReportEntry) :
    e ∈ get_cross_referenced_pages pages mc ↔
      ∃ p ∈ pages, mc ≤ (p.2.clients_following.length : ℤ) ∧
        mkReportEntry p.1 p.2 = e := by
  simp only [get_cross_referenced_pages, List.mem_insertionSort, List.mem_filterMap]
  constructor
  · rintro ⟨p, hp, hf⟩
    by_cases h : mc ≤ (p.2.clients_following.length : ℤ)
    · rw [if_pos h, Option.some.injEq] at hf
      exact ⟨p, hp, h, hf⟩
    · rw [if_neg h] at hf
      cases hf
  · rintro ⟨p, hp, h, he⟩
    exact ⟨p, hp, by rw [if_pos h, he]⟩

/-- Membership characterization of the category view. -/
theorem mem_get_pages_by_category (pages : List (String × PageData))
    (category : String) (mc : ℤ) (e : CatEntry) :
    e ∈ get_pages_by_category pages category mc ↔
      ∃ p ∈ pages, keepInCategory category mc p.2 = true ∧
        mkCatEntry p.1 p.2 = e := by
  simp only [get_pages_by_category, List.mem_insertionSort, List.mem_filterMap]
  constructor
  · rintro ⟨p, hp, hf⟩
    by_cases h : keepInCategory category mc p.2 = true
    · rw [if_pos h, Option.some.injEq] at hf
      exact ⟨p, hp, h, hf⟩
    · rw [if_neg h] at hf
      cases hf
  · rintro ⟨p, hp, h, he⟩
    exact ⟨p, hp, by rw [if_pos h, he]⟩

/-- C2: every row of the cross-reference report and of the category view
carries `concentration = clients / followers` guarded to `0` when the
follower count is `0`, and `followers_per_client = followers / clients`
guarded to `0` when the client count is `0` — the guards are the `if`
expressions of `main.py` lines 497–500 and `categorize_app.py` lines
331–332, so neither metric is ever produced by a division by zero. -/
theorem concentration_zero_guard (pages : List (String × PageData))
    (min_clients : ℤ) (category : String) :
    (∀ e ∈ get_cross_referenced_pages pages min_clients,
      e.concentration =
        (if 0 < e.total_followers
         then (e.clients_following : ℚ) / (e.total_followers : ℚ) else 0) ∧
      e.followers_per_client =
        (if 0 < e.clients_following
         then (e.total_followers : ℚ) / (e.clients_following : ℚ) else 0)) ∧
    (∀ e ∈ get_pages_by_category pages category min_clients,
      e.concentration =
        (if 0 < e.follower_count
         then (e.client_count : ℚ) / (e.follower_count : ℚ) else 0) ∧
      e.followers_per_client =
        (if 0 < e.client_count
         then (e.follower_count : ℚ) / (e.client_count : ℚ) else 0)) := by
  constructor
  · intro e he
    rw [get_cross_referenced_pages, List.mem_insertionSort] at he
    obtain ⟨p, _, hf⟩ := List.mem_filterMap.mp he
    by_cases h : min_clients ≤ (p.2.clients_following.length : ℤ)
    · rw [if_pos h, Option.some.injEq] at hf
      subst hf
      constructor <;> rfl
    · rw [if_neg h] at hf
      cases hf
  · intro e he
    rw [get_pages_by_category, List.mem_insertionSort] at he
    obtain ⟨p, _, hf⟩ := List.mem_filterMap.mp he
    by_cases h : keepInCategory category min_clients p.2 = true
    · rw [if_pos h, Option.some.injEq] at hf
      subst hf
      constructor <;> rfl
    · rw [if_neg h] at hf
      cases hf

/-- Closed instance of `concentration_zero_guard` at the example page. -/
theorem concentration_zero_guard_witness :
    (mkReportEntry "P" examplePageP ∈ get_cross_referenced_pages [("P", examplePageP)] 2) ∧
    ((mkReportEntry "P" examplePageP).concentration =
      (if 0 < (mkReportEntry "P" examplePageP).total_followers
       then ((mkReportEntry "P" examplePageP).clients_following : ℚ) /
         ((mkReportEntry "P" examplePageP).total_followers : ℚ) else 0) ∧
     (mkReportEntry "P" examplePageP).followers_per_client =
      (if 0 < (mkReportEntry "P" examplePageP).clients_following
       then ((mkReportEntry "P" examplePageP).total_followers : ℚ) /
         ((mkReportEntry "P" examplePageP).clients_following : ℚ) else 0)) :=
  have hmem : mkReportEntry "P" examplePageP ∈
      get_cross_referenced_pages [("P", examplePageP)] 2 :=
    (mem_get_cross_referenced_pages _ _ _).mpr
      ⟨("P", examplePageP), List.mem_singleton.mpr rfl, by decide, rfl⟩
  ⟨hmem,
   (concentration_zero_guard [("P", examplePageP)] 2 "Fitness").1
     (mkReportEntry "P" examplePageP) hmem⟩

/-- Bool-conditioned version of `filterMap_ite_eq`. -/
theorem filterMap_ite_eq_bool {α β : Type} (q : α → Bool) (g : α → β) (l : List α) :
    l.filterMap (fun a => if q a = true then some (g a) else none)
      = (l.filter q).map g := by
  induction l with
  | nil => rfl
  | cons x t ih => cases h : q x <;> simp [List.filterMap_cons, h, ih]

/-- A list pairwise-sorted so that any element with property `p` can only
be followed by elements that also fail `p` splits as the `p`-block followed
by the non-`p` block. -/
theorem filter_append_of_pairwise {α : Type} (p : α → Bool) :
    ∀ l : List α, l.Pairwise (fun a b => p b = true → p a = true) →
      l = l.filter p ++ l.filter (fun x => !(p x))
  | [], _ => rfl
  | x :: t, hpw => by
    obtain ⟨hx, ht⟩ := List.pairwise_cons.mp hpw
    cases h : p x with
    | true =>
      rw [List.filter_cons_of_pos h, List.filter_cons_of_neg (by simp [h])]
      rw [List.cons_append]
      exact congrArg _ (filter_append_of_pairwise p t ht)
    | false =>
      have hnone : ∀ y ∈ t, p y = false := by
        intro y hy
        cases hpy : p y with
        | true => rw [hx y hy hpy] at h; cases h
        | false => rfl
      rw [List.filter_cons_of_neg (by simp [h]), List.filter_cons_of_pos (by simp [h])]
      rw [List.filter_eq_nil_iff.mpr (fun y hy => by simp [hnone y hy]),
        List.nil_append,
        List.filter_eq_self.mpr (fun y hy => by simp [hnone y hy])]

/-- C8: the category view is a permutation of the rows of the pages that
pass the category filter; it lists first all rows with
`concentration_per_dollar` present, sorted by it descending, then all rows
without it, sorted by `followers_per_client` descending; and
`concentration_per_dollar` is present in a row exactly when the page has a
promo price greater than zero. -/
theorem get_pages_by_category_spec (pages : List (String × PageData))
    (category : String) (min_clients : ℤ) :
    (get_pages_by_category pages category min_clients).Perm
        ((pages.filter (fun p => keepInCategory category min_clients p.2)).map
          (fun p => mkCatEntry p.1 p.2)) ∧
    get_pages_by_category pages category min_clients
      = (get_pages_by_category pages category min_clients).filter
          (fun e => e.concentration_per_dollar.isSome) ++
        (get_pages_by_category pages category min_clients).filter
          (fun e => !e.concentration_per_dollar.isSome) ∧
    ((get_pages_by_category pages category min_clients).filter
        (fun e => e.concentration_per_dollar.isSome)).Pairwise
      (fun a b => b.concentration_per_dollar.getD 0 ≤ a.concentration_per_dollar.getD 0) ∧
    ((get_pages_by_category pages category min_clients).filter
        (fun e => !e.concentration_per_dollar.isSome)).Pairwise
      (fun a b => b.followers_per_client ≤ a.followers_per_client) ∧
    (∀ e ∈ get_pages_by_category pages category min_clients,
      (e.concentration_per_dollar.isSome = true ↔
        ∃ q : ℚ, e.promo_price = some q ∧ 0 < q)) := by
  have hpw : (get_pages_by_category pages category min_clients).Pairwise catLe :=
    List.sorted_insertionSort catLe _
  refine ⟨?_, ?_, ?_, ?_, ?_⟩
  · rw [get_pages_by_category]
    rw [filterMap_ite_eq_bool]
    exact List.perm_insertionSort catLe _
  · apply filter_append_of_pairwise
    refine hpw.imp ?_
    intro a b hab hb
    unfold catLe at hab
    cases ha' : a.concentration_per_dollar with
    | some x => rfl
    | none =>
      cases hb' : b.concentration_per_dollar with
      | some y => rw [ha', hb'] at hab; cases hab
      | none => rw [hb'] at hb; cases hb
  · have hf : ((get_pages_by_category pages category min_clients).filter
        (fun e => e.concentration_per_dollar.isSome)).Pairwise catLe :=
      List.Pairwise.sublist (List.filter_sublist _) hpw
    refine hf.imp_of_mem ?_
    intro a b ha hb hab
    obtain ⟨x, hx⟩ := Option.isSome_iff_exists.mp (List.mem_filter.mp ha).2
    obtain ⟨y, hy⟩ := Option.isSome_iff_exists.mp (List.mem_filter.mp hb).2
    unfold catLe at hab
    rw [hx, hy] at hab ⊢
    simpa using hab
  · have hf : ((get_pages_by_category pages category min_clients).filter
        (fun e => !e.concentration_per_dollar.isSome)).Pairwise catLe :=
      List.Pairwise.sublist (List.filter_sublist _) hpw
    refine hf.imp_of_mem ?_
    intro a b ha hb hab
    have ha' : a.concentration_per_dollar = none := by
      have := (List.mem_filter.mp ha).2
      simpa [Option.isNone_iff_eq_none] using this
    have hb' : b.concentration_per_dollar = none := by
      have := (List.mem_filter.mp hb).2
      simpa [Option.isNone_iff_eq_none] using this
    unfold catLe at hab
    rw [ha', hb'] at hab
    exact hab
  · intro e he
    obtain ⟨p, _, _, he'⟩ := (mem_get_pages_by_category _ _ _ _).mp he
    subst he'
    show (mkCatEntry p.1 p.2).concentration_per_dollar.isSome = true ↔ _
    cases hpp : p.2.promo_price with
    | none =>
      simp [mkCatEntry, hpp]
    | some v =>
      by_cases hv : 0 < v
      · simp [mkCatEntry, hpp, hv]
      · simp [mkCatEntry, hpp, hv]

/-- Closed instance of `get_pages_by_category_spec` at the example page. -/
theorem get_pages_by_category_spec_witness :
    (mkCatEntry "P" examplePageP ∈
      get_pages_by_category [("P", examplePageP)] "Fitness" 2) ∧
    ((mkCatEntry "P" examplePageP).concentration_per_dollar.isSome = true ↔
      ∃ q : ℚ, (mkCatEntry "P" examplePageP).promo_price = some q ∧ 0 < q) :=
  have hmem : mkCatEntry "P" examplePageP ∈
      get_pages_by_category [("P", examplePageP)] "Fitness" 2 :=
    (mem_get_pages_by_category _ _ _ _).mpr
      ⟨("P", examplePageP), List.mem_singleton.mpr rfl, by decide, rfl⟩
  ⟨hmem, (get_pages_by_category_spec [("P", examplePageP)] "Fitness" 2).2.2.2.2
    (mkCatEntry "P" examplePageP) hmem⟩

/-! ### `matches_hotlist` and `prioritize_pages` (`scrape_profiles.py`
lines 16–28 and 59–105) -/

/-- The hotlist keyword set of `scrape_profiles.py` lines 16–28. -/
def HOTLIST_KEYWORDS : List String :=
  ["hustl", "afri", "afro", "black", "melanin", "blvck",
   "culture", "kulture", "brown", "noir", "ebony"]

/-- A string, lowercased, as a character list (`str.lower()`; ASCII case
folding). -/
def lowerChars (s : String) : List Char := s.toList.map Char.toLower

/-- Python's substring test `needle in hay` on character lists. -/
def containsSub (hay needle : List Char) : Bool :=
  hay.tails.any (fun t => needle.isPrefixOf t)

/-- `matches_hotlist(page_data)` (`scrape_profiles.py` lines 59–65): any
hotlist keyword, lowercased, occurs as a substring of
`f"{username} {full_name}"` with both parts lowercased. -/
def matches_hotlist (pd : PageData) : Bool :=
  let text := lowerChars pd.username ++ [' '] ++ lowerChars pd.full_name
  HOTLIST_KEYWORDS.any (fun keyword => containsSub text (lowerChars keyword))

/-- The tier assigned to one page by the `if/elif` chain of
`prioritize_pages` (`scrape_profiles.py` lines 86–93). -/
def tierOf (pd : PageData) : ℕ :=
  if 2 ≤ pd.clients_following.length ∧ matches_hotlist pd = true then 1
  else if matches_hotlist pd = true then 2
  else if 2 ≤ pd.clients_following.length then 3
  else 4

/-- The accumulating loop of `prioritize_pages` (`scrape_profiles.py`
lines 81–93): one pass over `pages_to_scrape`, appending each page to the
list of its tier. -/
def prioritizeLoop (pages : String → PageData) :
    List String →
    List (String × PageData × ℕ) → List (String × PageData × ℕ) →
    List (String × PageData × ℕ) → List (String × PageData × ℕ) →
    List (String × PageData × ℕ) × List (String × PageData × ℕ) ×
      List (String × PageData × ℕ) × List (String × PageData × ℕ)
  | [], t1, t2, t3, t4 => (t1, t2, t3, t4)
  | u :: rest, t1, t2, t3, t4 =>
    let pd := pages u
    if 2 ≤ pd.clients_following.length ∧ matches_hotlist pd = true then
      prioritizeLoop pages rest (t1 ++ [(u, pd, 1)]) t2 t3 t4
    else if matches_hotlist pd = true then
      prioritizeLoop pages rest t1 (t2 ++ [(u, pd, 2)]) t3 t4
    else if 2 ≤ pd.clients_following.length then
      prioritizeLoop pages rest t1 t2 (t3 ++ [(u, pd, 3)]) t4
    else
      prioritizeLoop pages rest t1 t2 t3 (t4 ++ [(u, pd, 4)])

/-- `prioritize_pages(pages, pages_to_scrape)` (`scrape_profiles.py` lines
68–105): the concatenation `tier_1 + tier_2 + tier_3 + tier_4` plus the
four tier counts. `pages` is the total dictionary `username ↦ page_data`
(every scraped username is a key, as `pages[username]` is indexed
directly). -/
def prioritize_pages (pages : String → PageData) (pages_to_scrape : List String) :
    List (String × PageData × ℕ) × (ℕ × ℕ × ℕ × ℕ) :=
  let r := prioritizeLoop pages pages_to_scrape [] [] [] []
  (r.1 ++ r.2.1 ++ r.2.2.1 ++ r.2.2.2,
   (r.1.length, r.2.1.length, r.2.2.1.length, r.2.2.2.length))

/-- The loop's four accumulators collect exactly the pages of the four
tiers, in input order. -/
theorem prioritizeLoop_spec (pages : String → PageData) :
    ∀ (l : List String) (t1 t2 t3 t4 : List (String × PageData × ℕ)),
      prioritizeLoop pages l t1 t2 t3 t4 =
        (t1 ++ (l.map (fun u => (u, pages u, tierOf (pages u)))).filter
            (fun x => x.2.2 == 1),
         t2 ++ (l.map (fun u => (u, pages u, tierOf (pages u)))).filter
            (fun x => x.2.2 == 2),
         t3 ++ (l.map (fun u => (u, pages u, tierOf (pages u)))).filter
            (fun x => x.2.2 == 3),
         t4 ++ (l.map (fun u => (u, pages u, tierOf (pages u)))).filter
            (fun x => x.2.2 == 4))
  | [], t1, t2, t3, t4 => by simp [prioritizeLoop]
  | u :: rest, t1, t2, t3, t4 => by
    simp only [prioritizeLoop]
    by_cases h1 : 2 ≤ (pages u).clients_following.length ∧ matches_hotlist (pages u) = true
    · rw [if_pos h1, prioritizeLoop_spec pages rest]
      have ht : tierOf (pages u) = 1 := if_pos h1
      simp [ht]
    · rw [if_neg h1]
      by_cases h2 : matches_hotlist (pages u) = true
      · rw [if_pos h2, prioritizeLoop_spec pages rest]
        have ht : tierOf (pages u) = 2 := by rw [tierOf, if_neg h1, if_pos h2]
        simp [ht]
      · rw [if_neg h2]
        by_cases h3 : 2 ≤ (pages u).clients_following.length
        · rw [if_pos h3, prioritizeLoop_spec pages rest]
          have ht : tierOf (pages u) = 3 := by
            rw [tierOf, if_neg h1, if_neg h2, if_pos h3]
          simp [ht]
        · rw [if_neg h3, prioritizeLoop_spec pages rest]
          have ht : tierOf (pages u) = 4 := by
            rw [tierOf, if_neg h1, if_neg h2, if_neg h3]
          simp [ht]

/-- C3: each page gets exactly the tier of the claimed condition table
(1 = two-plus clients and hotlist, 2 = hotlist only, 3 = two-plus clients
only, 4 = neither), and the prioritized output is the stable partition:
all tier-1 pages in input order, then tier-2, tier-3, tier-4. -/
theorem prioritize_pages_spec (pages : String → PageData)
    (pages_to_scrape : List String) :
    (∀ pd : PageData,
      (tierOf pd = 1 ↔
        2 ≤ pd.clients_following.length ∧ matches_hotlist pd = true) ∧
      (tierOf pd = 2 ↔
        matches_hotlist pd = true ∧ pd.clients_following.length < 2) ∧
      (tierOf pd = 3 ↔
        2 ≤ pd.clients_following.length ∧ matches_hotlist pd = false) ∧
      (tierOf pd = 4 ↔
        pd.clients_following.length < 2 ∧ matches_hotlist pd = false)) ∧
    (prioritize_pages pages pages_to_scrape).1 =
      (pages_to_scrape.map (fun u => (u, pages u, tierOf (pages u)))).filter
          (fun x => x.2.2 == 1) ++
        (pages_to_scrape.map (fun u => (u, pages u, tierOf (pages u)))).filter
          (fun x => x.2.2 == 2) ++
        (pages_to_scrape.map (fun u => (u, pages u, tierOf (pages u)))).filter
          (fun x => x.2.2 == 3) ++
        (pages_to_scrape.map (fun u => (u, pages u, tierOf (pages u)))).filter
          (fun x => x.2.2 == 4) := by
  constructor
  · intro pd
    cases hm : matches_hotlist pd with
    | true =>
      by_cases hlen : 2 ≤ pd.clients_following.length
      · have ht : tierOf pd = 1 := if_pos ⟨hlen, hm⟩
        rw [ht]
        simp [hm, hlen]
      · have ht : tierOf pd = 2 := by
          rw [tierOf, if_neg (fun hc => hlen hc.1), if_pos hm]
        rw [ht]
        simp [hm, hlen] <;> omega
    | false =>
      have hm' : ¬matches_hotlist pd = true := by simp [hm]
      by_cases hlen : 2 ≤ pd.clients_following.length
      · have ht : tierOf pd = 3 := by
          rw [tierOf, if_neg (fun hc => hm' hc.2), if_neg hm', if_pos hlen]
        rw [ht]
        simp [hm, hlen]
      · have ht : tierOf pd = 4 := by
          rw [tierOf, if_neg (fun hc => hm' hc.2), if_neg hm', if_neg hlen]
        rw [ht]
        simp [hm, hlen] <;> omega
  · unfold prioritize_pages
    rw [prioritizeLoop_spec]
    simp

/-! ### Scrape-skip / failure-backoff (`scrape_profiles.py` lines 30–32,
143–231, 259–311, 494–554) -/

/-- `CONSECUTIVE_FAILURE_THRESHOLD` (`scrape_profiles.py` line 31). -/
def CONSECUTIVE_FAILURE_THRESHOLD : ℕ := 5

/-- `LONG_TERM_FAILURE_RETRY_DAYS` (`scrape_profiles.py` line 32),
as seconds (`timedelta(days=30)`). -/
def LONG_TERM_FAILURE_RETRY_SECONDS : ℤ := 30 * 86400

/-- `timedelta(hours=1)` as seconds. -/
def ONE_HOUR_SECONDS : ℤ := 3600

/-- The skip filter of a routine run (`priority_scrape`, lines 276–311,
and `scrape_all`, lines 360–395, share this block verbatim): skip a page
that already holds a successful record with a base64 image; skip a failed
page for 1 hour, or for 30 days once marked `long_term_failed`; a missing
or unparseable `last_attempt` never blocks a retry. -/
def routine_scrape_skip (now : ℤ) (pd : Option ProfileData) : Bool :=
  match pd with
  | none => false
  | some p =>
    if truthyOptStr p.profile_pic_url && truthyOptStr p.profile_pic_base64 then
      true
    else if p.failed then
      if p.long_term_failed then
        match p.last_attempt with
        | some t => decide (now - t < LONG_TERM_FAILURE_RETRY_SECONDS)
        | none => false
      else
        match p.last_attempt with
        | some t => decide (now - t < ONE_HOUR_SECONDS)
        | none => false
    else false

/-- The skip filter of the force re-scrape runs (`re_scrape_priority`,
lines 437–453, and `re_scrape_all`, lines 514–530, share this block
verbatim): only a failed page marked `long_term_failed` whose last attempt
parses and is less than 30 days old is skipped. -/
def force_rescrape_skip (now : ℤ) (pd : Option ProfileData) : Bool :=
  match pd with
  | none => false
  | some p =>
    if p.failed && p.long_term_failed then
      match p.last_attempt with
      | some t => decide (now - t < LONG_TERM_FAILURE_RETRY_SECONDS)
      | none => false
    else false

/-- The failure branches of `scrape_pages` (`scrape_profiles.py` lines
182–205 and 208–231): increment the consecutive-failure counter read from
the previous record (`{}` ⇒ 0), stamp `last_attempt = now`, keep the error
text, and set the `long_term_failed` marker exactly when the counter has
reached `CONSECUTIVE_FAILURE_THRESHOLD`. The written dictionary holds no
profile-picture keys. -/
def record_failure (prev : Option ProfileData) (now : ℤ) (err : String) :
    ProfileData :=
  let cf := (match prev with
    | some p => p.consecutive_failures
    | none => 0) + 1
  { profile_pic_url := none
    profile_pic_base64 := none
    profile_pic_mime_type := none
    bio := none
    posts := []
    follower_count := none
    full_name := none
    is_verified := none
    scraped_at := none
    promo_status := none
    promo_indicators := none
    website_url := none
    website_promo_info := none
    failed := true
    last_attempt := some now
    error := some err
    consecutive_failures := cf
    long_term_failed := decide (CONSECUTIVE_FAILURE_THRESHOLD ≤ cf) }

/-- The success branch of `scrape_pages` (`scrape_profiles.py` lines
143–159): store the scraped fields with `failed = False` and the
consecutive-failure counter reset to `0`; the success dictionary holds no
`last_attempt` or `long_term_failed` key. -/
def record_success (scraped : ProfileData) : ProfileData :=
  { profile_pic_url := scraped.profile_pic_url
    profile_pic_base64 := scraped.profile_pic_base64
    profile_pic_mime_type := scraped.profile_pic_mime_type
    bio := scraped.bio
    posts := scraped.posts
    follower_count := scraped.follower_count
    full_name := scraped.full_name
    is_verified := scraped.is_verified
    scraped_at := scraped.scraped_at
    promo_status := scraped.promo_status
    promo_indicators := scraped.promo_indicators
    website_url := scraped.website_url
    website_promo_info := scraped.website_promo_info
    failed := false
    last_attempt := none
    error := none
    consecutive_failures := 0
    long_term_failed := false }

/-- C5: on a routine run a failure record is skipped exactly while its
cool-down runs: below 5 consecutive failures, exactly when the last
attempt is less than 1 hour old; at 5 or more (equivalently, with the
`long_term_failed` marker, which `record_failure` sets exactly at the
threshold), exactly when it is less than 30 days old. -/
theorem routine_skip_backoff (prev : Option ProfileData) (tAtt now : ℤ)
    (err : String) :
    ((record_failure prev tAtt err).consecutive_failures
        < CONSECUTIVE_FAILURE_THRESHOLD →
      (routine_scrape_skip now (some (record_failure prev tAtt err)) = true ↔
        now - tAtt < ONE_HOUR_SECONDS)) ∧
    (CONSECUTIVE_FAILURE_THRESHOLD
        ≤ (record_failure prev tAtt err).consecutive_failures →
      (routine_scrape_skip now (some (record_failure prev tAtt err)) = true ↔
        now - tAtt < LONG_TERM_FAILURE_RETRY_SECONDS)) ∧
    (record_failure prev tAtt err).long_term_failed
      = decide (CONSECUTIVE_FAILURE_THRESHOLD
          ≤ (record_failure prev tAtt err).consecutive_failures) := by
  constructor
  · intro hlt
    have hl : (record_failure prev tAtt err).long_term_failed = false := by
      simp only [record_failure, decide_eq_false_iff_not]
      revert hlt
      simp only [record_failure, CONSECUTIVE_FAILURE_THRESHOLD]
      omega
    simp [routine_scrape_skip, record_failure, truthyOptStr] at hl ⊢
    simp [hl]
  · refine ⟨?_, rfl⟩
    intro hge
    have hl : (record_failure prev tAtt err).long_term_failed = true := by
      simp only [record_failure]
      simp only [decide_eq_true_eq]
      revert hge
      simp [record_failure]
    simp [routine_scrape_skip, record_failure, truthyOptStr] at hl ⊢
    simp [hl]

/-- Closed instance of `routine_skip_backoff`: one prior failure, last
attempt 59 minutes ago — the page is skipped (and at the 5-failure
threshold the marker is set). -/
theorem routine_skip_backoff_witness :
    ((record_failure none 0 "err").consecutive_failures
      < CONSECUTIVE_FAILURE_THRESHOLD) ∧
    (routine_scrape_skip 3540 (some (record_failure none 0 "err")) = true ↔
      (3540 : ℤ) - 0 < ONE_HOUR_SECONDS) :=
  ⟨by decide, (routine_skip_backoff none 0 3540 "err").1 (by decide)⟩

/-- C6: a force re-scrape selects every page — absent, successful or
ordinarily failed records are never skipped — except a failure record
bearing the long-term marker (5 or more consecutive failures) whose last
attempt is less than 30 days old. -/
theorem force_rescrape_skip_spec (now : ℤ) :
    force_rescrape_skip now none = false ∧
    (∀ scraped : ProfileData,
      force_rescrape_skip now (some (record_success scraped)) = false) ∧
    (∀ (prev : Option ProfileData) (tAtt : ℤ) (err : String),
      force_rescrape_skip now (some (record_failure prev tAtt err)) = true ↔
        (CONSECUTIVE_FAILURE_THRESHOLD
            ≤ (record_failure prev tAtt err).consecutive_failures ∧
          now - tAtt < LONG_TERM_FAILURE_RETRY_SECONDS)) := by
  refine ⟨rfl, fun scraped => ?_, fun prev tAtt err => ?_⟩
  · simp [force_rescrape_skip, record_success]
  · by_cases hge : CONSECUTIVE_FAILURE_THRESHOLD
        ≤ (record_failure prev tAtt err).consecutive_failures
    · have hl : (record_failure prev tAtt err).long_term_failed = true := by
        simp only [record_failure, decide_eq_true_eq]
        revert hge
        simp [record_failure]
      simp [force_rescrape_skip, record_failure] at hl ⊢
    · have hl : (record_failure prev tAtt err).long_term_failed = false := by
        simp only [record_failure, decide_eq_false_iff_not]
        revert hge
        simp [record_failure]
      simp [force_rescrape_skip, record_failure] at hl ⊢

/-! ### `IGFollowerAnalyzer._update_pages_database` (`main.py` lines
395–428) -/

/-- One element of a client's scraped following list, as read by
`_update_pages_database` (`page["username"]`, `page.get("full_name", "")`,
`page.get("follower_count", 0)`, `page.get("is_verified", False)`). -/
structure FollowedPage : Type where
  username : String
  full_name : String
  follower_count : ℕ
  is_verified : Bool

/-- The fresh page record created at `main.py` lines 401–421 when the
username is not yet in the pages map. -/
def freshPage (fp : FollowedPage) : PageData :=
  { username := fp.username
    full_name := fp.full_name
    follower_count := fp.follower_count
    is_verified := fp.is_verified
    clients_following := []
    promo_price := none
    category := none
    category_confidence := none
    contact_email := none
    promo_status := "Unknown"
    promo_indicators := []
    last_categorized := none
    profile_data := none
    known_contact_methods := []
    successful_contact_method := none
    current_main_contact_method := none
    ig_account_for_dm := none
    website_url := none
    website_promo_info := none }

/-- Lookup in the typed pages map (first matching key). -/
def lookupPD (d : List (String × PageData)) (k : String) : Option PageData :=
  match d with
  | [] => none
  | (k', v) :: rest => if k' = k then some v else lookupPD rest k

/-- In-place update of the first entry with key `k`. -/
def modifyPD (d : List (String × PageData)) (k : String)
    (f : PageData → PageData) : List (String × PageData) :=
  match d with
  | [] => []
  | (k', v) :: rest =>
    if k' = k then (k', f v) :: rest else (k', v) :: modifyPD rest k f

/-- `if client_username not in ...clients_following: append` (`main.py`
lines 424–425). -/
def addClientName (client : String) (l : List String) : List String :=
  if client ∈ l then l else l ++ [client]

/-- One iteration of the `_update_pages_database` loop (`main.py` lines
397–428): create the page record if absent, append the client to its
`clients_following` if not already present, and overwrite
`follower_count` from the scraped entry. -/
def update_step (client : String) (ps : List (String × PageData))
    (fp : FollowedPage) : List (String × PageData) :=
  let ps :=
    match lookupPD ps fp.username with
    | some _ => ps
    | none => ps ++ [(fp.username, freshPage fp)]
  modifyPD ps fp.username (fun e =>
    { e with clients_following := addClientName client e.clients_following,
             follower_count := fp.follower_count })

/-- `IGFollowerAnalyzer._update_pages_database(client_username,
following_list)` as a state transformer of the pages map. -/
def update_pages_database (client : String) (fl : List FollowedPage)
    (ps : List (String × PageData)) : List (String × PageData) :=
  fl.foldl (update_step client) ps

/-- The effect of one loop iteration on the record stored under one key. -/
def stepEntry (client : String) (fp : FollowedPage)
    (acc : Option PageData) : PageData :=
  let e := acc.getD (freshPage fp)
  { e with clients_following := addClientName client e.clients_following,
           follower_count := fp.follower_count }

theorem lookupPD_append (a b : List (String × PageData)) (k : String) :
    lookupPD (a ++ b) k =
      match lookupPD a k with
      | some v => some v
      | none => lookupPD b k := by
  induction a with
  | nil => simp [lookupPD]
  | cons hd tl ih =>
    obtain ⟨k', v⟩ := hd
    by_cases h : k' = k <;> simp [lookupPD, h, ih]

theorem lookupPD_modifyPD (d : List (String × PageData)) (k u : String)
    (f : PageData → PageData) :
    lookupPD (modifyPD d k f) u =
      if k = u then (lookupPD d u).map f else lookupPD d u := by
  induction d with
  | nil => simp [lookupPD, modifyPD]
  | cons hd tl ih =>
    obtain ⟨k', v⟩ := hd
    by_cases hk : k' = k
    · subst hk
      by_cases hu : k' = u
      · subst hu
        simp [modifyPD, lookupPD]
      · simp [modifyPD, lookupPD, hu]
    · by_cases hu : k' = u
      · subst hu
        have : ¬k = k' := fun h => hk h.symm
        simp [modifyPD, lookupPD, hk, this]
      · simp [modifyPD, lookupPD, hk, hu, ih]

/-- Lookup commutes with one update step: only the key of the processed
entry changes, via `stepEntry`. -/
theorem lookupPD_update_step (client : String) (ps : List (String × PageData))
    (fp : FollowedPage) (u : String) :
    lookupPD (update_step client ps fp) u =
      if fp.username = u then some (stepEntry client fp (lookupPD ps u))
      else lookupPD ps u := by
  unfold update_step
  cases hl : lookupPD ps fp.username with
  | some e0 =>
    rw [lookupPD_modifyPD]
    by_cases hu : fp.username = u
    · subst hu
      rw [if_pos rfl, if_pos rfl, hl]
      rfl
    · rw [if_neg hu, if_neg hu]
  | none =>
    rw [lookupPD_modifyPD]
    by_cases hu : fp.username = u
    · subst hu
      rw [if_pos rfl, if_pos rfl, lookupPD_append, hl]
      simp [lookupPD, stepEntry]
    · rw [if_neg hu, if_neg hu, lookupPD_append]
      cases hpu : lookupPD ps u with
      | some v => rfl
      | none => simp [lookupPD, hu]

/-- The per-key folded effect of the whole loop. -/
def perKeyFold (client : String) (u : String) (fl : List FollowedPage)
    (acc : Option PageData) : Option PageData :=
  fl.foldl (fun acc fp =>
    if fp.username = u then some (stepEntry client fp acc) else acc) acc

/-- Lookup commutes with the whole loop. -/
theorem lookupPD_update_pages_database (client : String)
    (fl : List FollowedPage) (ps : List (String × PageData)) (u : String) :
    lookupPD (update_pages_database client fl ps) u =
      perKeyFold client u fl (lookupPD ps u) := by
  induction fl generalizing ps with
  | nil => rfl
  | cons fp rest ih =>
    show lookupPD (update_pages_database client rest (update_step client ps fp)) u = _
    rw [ih, lookupPD_update_step]
    unfold perKeyFold
    by_cases hu : fp.username = u <;> simp [hu]

theorem mem_addClientName (client : String) (l : List String) :
    client ∈ addClientName client l := by
  unfold addClientName
  by_cases h : client ∈ l
  · simpa [h]
  · simp [h]

theorem addClientName_idem (client : String) (l : List String) :
    addClientName client (addClientName client l) = addClientName client l := by
  rw [addClientName, if_pos (mem_addClientName client l)]

theorem count_addClientName (client : String) (l : List String)
    (h : l.count client ≤ 1) :
    (addClientName client l).count client = 1 := by
  unfold addClientName
  by_cases hm : client ∈ l
  · rw [if_pos hm]
    have h1 : 0 < l.count client := List.count_pos_iff.mpr hm
    omega
  · rw [if_neg hm]
    rw [List.count_append, List.count_eq_zero.mpr hm]
    simp

theorem lookupPD_mem (ps : List (String × PageData)) (u : String) (e : PageData)
    (h : lookupPD ps u = some e) : (u, e) ∈ ps := by
  induction ps with
  | nil => cases h
  | cons hd tl ih =>
    obtain ⟨k, v⟩ := hd
    by_cases hk : k = u
    · subst hk
      rw [lookupPD, if_pos rfl, Option.some.injEq] at h
      subst h
      exact List.mem_cons_self _ _
    · rw [lookupPD, if_neg hk] at h
      exact List.mem_cons_of_mem _ (ih h)

/-- Closed form of the per-key fold: no matching entry in the following
list leaves the slot alone; otherwise the slot holds the base record
(looked up, or fresh from the first matching entry) with the client added
once and the follower count of the last matching entry. -/
theorem perKeyFold_char (client u : String) :
    ∀ (fl : List FollowedPage) (acc : Option PageData),
      perKeyFold client u fl acc =
        match fl.filter (fun fp => fp.username == u) with
        | [] => acc
        | m0 :: ms =>
          some { (acc.getD (freshPage m0)) with
            clients_following :=
              addClientName client (acc.getD (freshPage m0)).clients_following,
            follower_count := (ms.getLastD m0).follower_count }
  | [], acc => rfl
  | fp :: rest, acc => by
    by_cases hu : fp.username = u
    · have hstep : perKeyFold client u (fp :: rest) acc
          = perKeyFold client u rest (some (stepEntry client fp acc)) := by
        unfold perKeyFold
        simp [hu]
      rw [hstep, perKeyFold_char client u rest (some (stepEntry client fp acc)),
        List.filter_cons_of_pos (by simp [hu])]
      cases hfr : rest.filter (fun q => q.username == u) with
      | nil => simp [stepEntry]
      | cons m0 ms =>
        simp only [Option.getD_some, List.getLastD_cons]
        simp [stepEntry, addClientName_idem]
    · have hstep : perKeyFold client u (fp :: rest) acc
          = perKeyFold client u rest acc := by
        unfold perKeyFold
        simp [hu]
      rw [hstep, perKeyFold_char client u rest acc,
        List.filter_cons_of_neg (by simp [hu])]

/-- C9: if every stored page lists the client at most once (the Following
invariant), then after `_update_pages_database` every page of the scraped
following list lists the client exactly once; and running the same update
a second time leaves the record stored under every username — in
particular every `clients_following` list — unchanged. -/
theorem update_pages_database_spec (client : String) (fl : List FollowedPage)
    (ps : List (String × PageData))
    (hcnt : ∀ p ∈ ps, p.2.clients_following.count client ≤ 1) :
    (∀ fp ∈ fl, ∃ e,
      lookupPD (update_pages_database client fl ps) fp.username = some e ∧
        e.clients_following.count client = 1) ∧
    (∀ u, lookupPD (update_pages_database client fl
        (update_pages_database client fl ps)) u
      = lookupPD (update_pages_database client fl ps) u) := by
  constructor
  · intro fp hfp
    rw [lookupPD_update_pages_database, perKeyFold_char]
    have hne : fl.filter (fun q => q.username == fp.username) ≠ [] := by
      intro hh
      have hin : fp ∈ fl.filter (fun q => q.username == fp.username) :=
        List.mem_filter.mpr ⟨hfp, by simp⟩
      rw [hh] at hin
      cases hin
    cases hfr : fl.filter (fun q => q.username == fp.username) with
    | nil => exact absurd hfr hne
    | cons m0 ms =>
      refine ⟨_, rfl, ?_⟩
      apply count_addClientName
      cases hlk : lookupPD ps fp.username with
      | none => simp [freshPage]
      | some e0 =>
        have hmem : (fp.username, e0) ∈ ps := lookupPD_mem ps fp.username e0 hlk
        exact hcnt _ hmem
  · intro u
    rw [lookupPD_update_pages_database, lookupPD_update_pages_database,
      perKeyFold_char, perKeyFold_char]
    cases hfr : fl.filter (fun q => q.username == u) with
    | nil => rfl
    | cons m0 ms =>
      simp [addClientName_idem]

/-- Closed instance of `update_pages_database_spec`: updating the example
map for client `C` scraping a following list containing page `pg`. -/
theorem update_pages_database_spec_witness :
    (∀ p ∈ [("P", examplePageP)], p.2.clients_following.count "C" ≤ 1) ∧
    ((∀ fp ∈ [(⟨"P", "Page P", 1200, false⟩ : FollowedPage)], ∃ e,
      lookupPD (update_pages_database "C"
          [(⟨"P", "Page P", 1200, false⟩ : FollowedPage)]
          [("P", examplePageP)]) fp.username = some e ∧
        e.clients_following.count "C" = 1) ∧
    (∀ u, lookupPD (update_pages_database "C"
        [(⟨"P", "Page P", 1200, false⟩ : FollowedPage)]
        (update_pages_database "C"
          [(⟨"P", "Page P", 1200, false⟩ : FollowedPage)]
          [("P", examplePageP)])) u
      = lookupPD (update_pages_database "C"
          [(⟨"P", "Page P", 1200, false⟩ : FollowedPage)]
          [("P", examplePageP)]) u)) :=
  ⟨by decide,
   update_pages_database_spec "C" [(⟨"P", "Page P", 1200, false⟩ : FollowedPage)]
     [("P", examplePageP)] (by decide)⟩

/-! ### `create_client` and `bulk_create_clients`
(`api/app/routes/clients.py` lines 18–34 and 51–89) -/

/-- `str.lower()` on handles (ASCII case folding), structurally on the
character list. -/
def strToLower (s : String) : String := String.mk (s.toList.map Char.toLower)

/-- The `ClientCreate` payload (`api/app/schemas/client.py`). -/
structure ClientCreatePayload : Type where
  ig_username : String
  display_name : Option String
  status : String
  notes : Option String
deriving DecidableEq

/-- A row of the `clients` table, as touched by the create routes. -/
structure ClientRow : Type where
  ig_username : String
  user_id : String
  display_name : Option String
  status : String
  notes : Option String
deriving DecidableEq

/-- `fetch_rows("clients", {"ig_username": uname}, user_id=user)`
(`api/app/db.py` lines 64–76): equality filters on the handle and the
owning user. -/
def fetch_clients (store : List ClientRow) (uname user : String) :
    List ClientRow :=
  store.filter (fun r => r.ig_username == uname && r.user_id == user)

/-- The row written by `insert_row("clients", data, user_id=user)` for a
payload whose handle has been lowercased. -/
def rowOfPayload (user : String) (p : ClientCreatePayload) : ClientRow :=
  { ig_username := strToLower p.ig_username
    user_id := user
    display_name := p.display_name
    status := p.status
    notes := p.notes }

/-- `create_client` (`api/app/routes/clients.py` lines 18–34): lowercase
the handle, look for an existing row of this user with that handle, raise
`409 CONFLICT` if found (before any insert), otherwise insert. The result
pairs the HTTP outcome with the table contents after the call. -/
def create_client (store : List ClientRow) (user : String)
    (p : ClientCreatePayload) : Except ℕ ClientRow × List ClientRow :=
  if fetch_clients store (strToLower p.ig_username) user ≠ [] then
    (Except.error 409, store)
  else
    (Except.ok (rowOfPayload user p), store ++ [rowOfPayload user p])

/-- `bulk_create_clients` (`api/app/routes/clients.py` lines 51–89):
reject an empty list with `400`; validate every payload against the store
first, collecting the duplicates; if any exist raise
`400 BAD_REQUEST` (before any insert); only then insert all rows. -/
def bulk_create_clients (store : List ClientRow) (user : String)
    (ps : List ClientCreatePayload) : Except ℕ (List ClientRow) × List ClientRow :=
  if ps = [] then (Except.error 400, store)
  else
    let errors := ps.filter (fun p =>
      fetch_clients store (strToLower p.ig_username) user ≠ [])
    if errors ≠ [] then (Except.error 400, store)
    else
      let inserted := ps.foldl (fun acc p => acc ++ [rowOfPayload user p]) []
      (Except.ok inserted, store ++ inserted)

/-- C10 (counterexample): a bulk-create request whose single payload
duplicates an existing client of the same user fails with HTTP `400`, not
`409` — the create paths do not share one duplicate status code. -/
theorem bulk_create_duplicate_is_400 :
    (bulk_create_clients
        [{ ig_username := "a", user_id := "u1", display_name := none,
           status := "pending", notes := none }] "u1"
        [{ ig_username := "A", display_name := none,
           status := "pending", notes := none }]).1
      = Except.error 400 ∧
    (bulk_create_clients
        [{ ig_username := "a", user_id := "u1", display_name := none,
           status := "pending", notes := none }] "u1"
        [{ ig_username := "A", display_name := none,
           status := "pending", notes := none }]).1
      ≠ Except.error 409 := by
  constructor
  · rfl
  · intro h
    rw [show (bulk_create_clients
        [{ ig_username := "a", user_id := "u1", display_name := none,
           status := "pending", notes := none }] "u1"
        [{ ig_username := "A", display_name := none,
           status := "pending", notes := none }]).1
      = Except.error 400 from rfl] at h
    injection h with h'
    omega

/-- C10 (amended): a single create whose lowercased handle already exists
among the user's clients fails with `409` and leaves the store unchanged;
a bulk create containing any such duplicate fails with `400`, likewise
before inserting anything — even for the non-duplicate payloads of the
batch. -/
theorem create_client_duplicate_spec (store : List ClientRow) (user : String) :
    (∀ p : ClientCreatePayload,
      fetch_clients store (strToLower p.ig_username) user ≠ [] →
        create_client store user p = (Except.error 409, store)) ∧
    (∀ ps : List ClientCreatePayload, ps ≠ [] →
      (∃ p ∈ ps, fetch_clients store (strToLower p.ig_username) user ≠ []) →
        bulk_create_clients store user ps = (Except.error 400, store)) := by
  constructor
  · intro p hdup
    rw [create_client, if_pos hdup]
  · intro ps hne hdup
    rw [bulk_create_clients, if_neg hne]
    obtain ⟨p, hp, hfetch⟩ := hdup
    have herr : ps.filter (fun q =>
        fetch_clients store (strToLower q.ig_username) user ≠ []) ≠ [] := by
      intro hh
      have hin : p ∈ ps.filter (fun q =>
          fetch_clients store (strToLower q.ig_username) user ≠ []) :=
        List.mem_filter.mpr ⟨hp, by simpa using hfetch⟩
      rw [hh] at hin
      cases hin
    simp [herr]
    exact ⟨p, hp, hfetch⟩

/-- Closed instance of `create_client_duplicate_spec`: the single-create
duplicate path at a concrete one-row store. -/
theorem create_client_duplicate_spec_witness :
    (fetch_clients
        [{ ig_username := "a", user_id := "u1", display_name := none,
           status := "pending", notes := none }]
        (strToLower "A") "u1" ≠ []) ∧
    create_client
        [{ ig_username := "a", user_id := "u1", display_name := none,
           status := "pending", notes := none }] "u1"
        { ig_username := "A", display_name := none,
          status := "pending", notes := none }
      = (Except.error 409,
         [{ ig_username := "a", user_id := "u1", display_name := none,
            status := "pending", notes := none }]) :=
  ⟨by decide,
   (create_client_duplicate_spec
      [{ ig_username := "a", user_id := "u1", display_name := none,
         status := "pending", notes := none }] "u1").1
     { ig_username := "A", display_name := none,
       status := "pending", notes := none } (by decide)⟩
